import Mathlib

/-!
Verification of the NiPype interface core (`nipype/interfaces/base.py` and
`nipype/interfaces/spm/base.py`).

The development shallowly embeds the specification-driven engine:
  * `Value` models the Python values stored in a `Bunch` of inputs
    (`None`, booleans, integers, strings, lists, dicts).  Lists and dicts
    are given as mutual inductives so that every function over them is
    structurally recursive and computable by the kernel.
  * `checkMandatoryInputs` embeds `BaseInterface._check_mandatory_inputs`.
  * `parseInputs` embeds `CommandLine._parse_inputs` (argument synthesis).
  * `getBunchHash` embeds `Bunch._get_bunch_hash` / `Bunch._hash_infile`
    (the provenance fingerprint); the digest primitive and the filesystem
    are parameters.
  * `commandLineRun` embeds `CommandLine.run`, with process spawning
    abstracted as a function from command lines to outcomes; the list of
    spawned command lines is returned alongside the result.
  * `generateJob` embeds `SPMCommand._generate_job` (the structured job
    serializer for the matlab dialect).
-/

namespace Nipype

/-! ## Python values -/

mutual
/-- Python values that can appear in an interface `Bunch` of inputs:
`None`, booleans, integers, strings, lists and dicts. -/
inductive Value where
  | vnone
  | vbool (b : Bool)
  | vint (n : Int)
  | vstr (s : String)
  | vlist (l : VList)
  | vdict (d : VDict)

/-- A Python list of `Value`s. -/
inductive VList where
  | vnil
  | vcons (hd : Value) (tl : VList)

/-- A Python dict with string keys and `Value` values, in insertion order. -/
inductive VDict where
  | dnil
  | dcons (key : String) (val : Value) (tl : VDict)
end

/-- Build a `VList` from a Lean list. -/
def VList.ofList : List Value → VList
  | [] => .vnil
  | v :: vs => .vcons v (VList.ofList vs)

/-- The elements of a `VList` as a Lean list. -/
def VList.toList : VList → List Value
  | .vnil => []
  | .vcons v tl => v :: VList.toList tl

/-- The keys of a `VDict` as a Lean list (Python iteration over a dict
yields its keys). -/
def VDict.keys : VDict → List String
  | .dnil => []
  | .dcons k _ tl => k :: VDict.keys tl

mutual
/-- Python `repr` of a `Value` (the form used by `Bunch.__repr__` and by
`str(sorted(dict.items()))` in the hash computation). -/
def reprValue : Value → String
  | .vnone => "None"
  | .vbool true => "True"
  | .vbool false => "False"
  | .vint n => toString n
  | .vstr s => "'" ++ s ++ "'"
  | .vlist l => "[" ++ reprVList l ++ "]"
  | .vdict d => "\x7b" ++ reprVDict d ++ "\x7d"

/-- Comma-separated `repr`s of the elements of a list. -/
def reprVList : VList → String
  | .vnil => ""
  | .vcons v .vnil => reprValue v
  | .vcons v tl => reprValue v ++ ", " ++ reprVList tl

/-- Comma-separated `repr`s of the entries of a dict. -/
def reprVDict : VDict → String
  | .dnil => ""
  | .dcons k v .dnil => "'" ++ k ++ "': " ++ reprValue v
  | .dcons k v tl => "'" ++ k ++ "': " ++ reprValue v ++ ", " ++ reprVDict tl
end

/-- Python `str` of a `Value`: a string is itself, everything else
coincides with its `repr`. -/
def pyStr : Value → String
  | .vstr s => s
  | v => reprValue v

/-- Python truthiness of a `Value` (`if value:`). -/
def pyTruthy : Value → Bool
  | .vnone => false
  | .vbool b => b
  | .vint n => n != 0
  | .vstr s => s != ""
  | .vlist .vnil => false
  | .vlist (.vcons _ _) => true
  | .vdict .dnil => false
  | .vdict (.dcons _ _ _) => true

/-- Modelled from the spec: `nipype.utils.misc.is_container` is not part of
the sources at hand; per the spec a container is a sequence or record
value (a list or a dict), while strings and scalars are not containers. -/
def isContainer : Value → Bool
  | .vlist _ => true
  | .vdict _ => true
  | _ => false

/-- True exactly for `Value.vnone` (Python `value is None`). -/
def isVNone : Value → Bool
  | .vnone => true
  | _ => false

/-- True exactly for an empty list value. -/
def isEmptyListVal : Value → Bool
  | .vlist .vnil => true
  | _ => false

/-- True when the value is the string `p` (used to phrase decidable
hypotheses about file-valued fields). -/
def valEqStr : Value → String → Bool
  | .vstr s, p => s == p
  | _, _ => false

/-! ## Small Python-faithful list/string utilities -/

/-- Byte-lexicographic `<` on strings, the order Python uses when sorting
field names. -/
def strLtChars : List Char → List Char → Bool
  | [], [] => false
  | [], _ :: _ => true
  | _ :: _, [] => false
  | a :: as, b :: bs =>
    if a.toNat < b.toNat then true
    else if b.toNat < a.toNat then false
    else strLtChars as bs

/-- Lexicographic `<` on strings via their character lists. -/
def pyStrLt (a b : String) : Bool := strLtChars a.data b.data

/-- Insert `x` into a list sorted by `lt`, after every element `y` with
`lt y x` (matching the stable placement of Python `sorted`). -/
def insSortedBy (lt : α → α → Bool) (x : α) : List α → List α
  | [] => [x]
  | y :: ys => if lt y x then y :: insSortedBy lt x ys else x :: y :: ys

/-- Stable insertion sort by the strict order `lt`, modelling Python
`sorted`. -/
def pySortedBy (lt : α → α → Bool) (l : List α) : List α :=
  l.foldr (insSortedBy lt) []

/-- Python `list.insert(i, x)`: inserts at index `i`, appending when `i`
is at least the length. -/
def pyInsert (l : List String) (i : Nat) (x : String) : List String :=
  l.take i ++ x :: l.drop i

/-- Decidable equality of `Except` results, so that concrete runs of the
embedded functions can be checked by `decide`. -/
instance exceptDecEq {ε α : Type} [DecidableEq ε] [DecidableEq α] :
    DecidableEq (Except ε α) := fun x y =>
  match x, y with
  | .error a, .error b =>
    if h : a = b then .isTrue (by rw [h])
    else .isFalse (fun hh => by cases hh; exact h rfl)
  | .ok a, .ok b =>
    if h : a = b then .isTrue (by rw [h])
    else .isFalse (fun hh => by cases hh; exact h rfl)
  | .error _, .ok _ => .isFalse (fun hh => by cases hh)
  | .ok _, .error _ => .isFalse (fun hh => by cases hh)

/-- Monadic map over a list in the `Except` monad, failing at the first
error (written out so that it computes by iota reduction). -/
def eMapM (f : α → Except ε β) : List α → Except ε (List β)
  | [] => .ok []
  | a :: l =>
    match f a with
    | .error e => .error e
    | .ok b =>
      match eMapM f l with
      | .error e => .error e
      | .ok bs => .ok (b :: bs)

/-! ## Python `%` string formatting -/

/-- Errors raised by Python `%` formatting: `TypeError`s are caught by
`_parse_inputs` and downgraded to warnings, `ValueError`s are not. -/
inductive PyFmtErr where
  | typeError (msg : String)
  | valueError (msg : String)
deriving DecidableEq

/-- Interpret a `Value` as an integer for `%d`, as Python does
(booleans count as 0/1, everything else is a `TypeError`). -/
def pyIntOf : Value → Option Int
  | .vint n => some n
  | .vbool b => some (if b then 1 else 0)
  | _ => none

/-- Core of Python `%` formatting over the template's characters,
consuming one argument per conversion; supports the `%s`, `%d` and `%%`
conversions appearing in the interface option tables. -/
def pyFmtCore : List Char → List Value → Except PyFmtErr (List Char)
  | [], [] => .ok []
  | [], _ :: _ => .error (.typeError "not all arguments converted during string formatting")
  | '%' :: '%' :: rest, args =>
    match pyFmtCore rest args with
    | .error e => .error e
    | .ok t => .ok ('%' :: t)
  | '%' :: 's' :: _, [] => .error (.typeError "not enough arguments for format string")
  | '%' :: 's' :: rest, a :: args =>
    match pyFmtCore rest args with
    | .error e => .error e
    | .ok t => .ok ((pyStr a).data ++ t)
  | '%' :: 'd' :: _, [] => .error (.typeError "not enough arguments for format string")
  | '%' :: 'd' :: rest, a :: args =>
    match pyIntOf a with
    | some n =>
      match pyFmtCore rest args with
      | .error e => .error e
      | .ok t => .ok ((toString n).data ++ t)
    | none => .error (.typeError "%d format: a number is required")
  | ['%'], _ => .error (.valueError "incomplete format")
  | '%' :: _ :: _, _ => .error (.valueError "unsupported format character")
  | c :: rest, args =>
    match pyFmtCore rest args with
    | .error e => .error e
    | .ok t => .ok (c :: t)

/-- Python `tmpl % args` with an explicit argument tuple. -/
def pyFmtTuple (tmpl : String) (args : List Value) : Except PyFmtErr String :=
  match pyFmtCore tmpl.data args with
  | .error e => .error e
  | .ok t => .ok (String.mk t)

/-- Python `tmpl % v` where `v` is not a tuple: the whole value is the
single conversion argument (even when it is a list). -/
def pyFmtScalar (tmpl : String) (v : Value) : Except PyFmtErr String :=
  pyFmtTuple tmpl [v]

/-- Whether the template contains a substitution marker
(`argstr.find('%') == -1` in the source). -/
def hasPercent (s : String) : Bool := s.data.contains '%'

/-- Whether the template ends with the repeat suffix `...`
(`argstr.endswith('...')`). -/
def endsWith3Dots (s : String) : Bool :=
  s.data.reverse.take 3 == ['.', '.', '.']

/-- Python `argstr.replace('...', '')`: removes every occurrence of the
three-dot marker, scanning left to right. -/
def removeDotsChars : List Char → List Char
  | '.' :: '.' :: '.' :: rest => removeDotsChars rest
  | c :: rest => c :: removeDotsChars rest
  | [] => []

/-- String form of `removeDotsChars`. -/
def removeDots (s : String) : String := String.mk (removeDotsChars s.data)

/-! ## Specification tables and the mandatory-field check -/

/-- One entry of an interface `in_spec` table, mirroring the tuple
`(desc, optional, default, mapping, position)`: `argstr` is present when
the tuple has at least four entries, `pos` when it has exactly five. -/
structure FieldSpec where
  desc : String := ""
  optional : Bool := true
  default : Value := .vnone
  argstr : Option String := none
  pos : Option Int := none

/-- An `in_spec` table: field name to descriptor, in declaration order. -/
abbrev InSpec := List (String × FieldSpec)

/-- The mandatory argument names,
`[k for k, v in self.in_spec.items() if not v[1]]`. -/
def mandatoryOf (spec : InSpec) : List String :=
  (spec.filter (fun kv => !kv.2.optional)).map (·.1)

/-- The `inkeys` list of `_check_mandatory_inputs`: the names of the
inputs whose value is truthy. -/
def inkeysOf (inputs : List (String × Value)) : List String :=
  (inputs.filter (fun kv => pyTruthy kv.2)).map (·.1)

/-- Embeds `BaseInterface._check_mandatory_inputs`: collects the names of
truthy inputs; when none is truthy it fails listing every mandatory
argument, otherwise it fails listing every mandatory argument that is not
among the truthy names.  The error carries the list of argument names the
source prints before raising `ValueError`. -/
def checkMandatoryInputs (mandatoryArgs : List String)
    (inputs : List (String × Value)) : Except (List String) Unit :=
  if mandatoryArgs.isEmpty then .ok ()
  else
    let inkeys := inkeysOf inputs
    if inkeys.isEmpty then .error mandatoryArgs
    else
      let missing := mandatoryArgs.filter (fun a => !inkeys.contains a)
      if missing.isEmpty then .ok () else .error missing

/-! ## Argument synthesis (`CommandLine._parse_inputs`) -/

/-- The exceptions that can arise while one field is processed:
`typeErr` is caught by the enclosing handler and downgraded to a warning,
`keyErr` (unknown option) is warned about and re-raised, `valueErr` and
`indexErr` propagate unhandled. -/
inductive FieldErr where
  | typeErr (msg : String)
  | keyErr (opt : String)
  | valueErr (msg : String)
  | indexErr
deriving DecidableEq

/-- Where the tokens of one field go: appended to the running argument
list, or recorded (first token only) under a non-negative or negative
position. -/
inductive Placement where
  | extend (toks : List String)
  | preArg (pos : Int) (tok : String)
  | postArg (pos : Int) (tok : String)
deriving DecidableEq

/-- The `val2append` computation of `_parse_inputs` for one field:
a template with no `%` marker is a boolean flag (`True` emits the
template, `False` leaves `val2append` as `None`, anything else is a
`TypeError`); a template ending in `...` is repeatable (the value is
coerced to a list, every `...` is removed by `str.replace`, and one token
is formatted per element); otherwise a list value is formatted as a tuple
into one token and a scalar value is formatted into one token. -/
def formatVal2Append (opt : String) (argstr : String) (value : Value) :
    Except FieldErr (Option (List String)) :=
  if !hasPercent argstr then
    match value with
    | .vbool true => .ok (some [argstr])
    | .vbool false => .ok none
    | v => .error (.typeErr ("Boolean option " ++ opt ++ " set to " ++ pyStr v))
  else
    let handle : Except PyFmtErr (List String) → Except FieldErr (Option (List String)) :=
      fun r =>
        match r with
        | .error (.typeError m) => .error (.typeErr m)
        | .error (.valueError m) => .error (.valueErr m)
        | .ok ts => .ok (some ts)
    if endsWith3Dots argstr then
      let elems := match value with
        | .vlist l => l.toList
        | v => [v]
      let newargstr := removeDots argstr
      handle (eMapM (fun v => pyFmtScalar newargstr v) elems)
    else
      match value with
      | .vlist l => handle ((pyFmtTuple argstr l.toList).map (fun t => [t]))
      | v => handle ((pyFmtScalar argstr v).map (fun t => [t]))

/-- Processing of one `(opt, value)` pair inside the `try` block of
`_parse_inputs`: look the option up in the spec table (`KeyError` when
absent, `IndexError` when the tuple has no format template), compute
`val2append`, then either record the first token under the field's
position (subscripting `None` or an empty list raises) or extend the
argument list (extending by `None` raises a `TypeError`). -/
def fieldStep (spec : InSpec) (opt : String) (value : Value) :
    Except FieldErr Placement :=
  match spec.lookup opt with
  | none => .error (.keyErr opt)
  | some fs =>
    match fs.argstr with
    | none => .error .indexErr
    | some argstr =>
      match formatVal2Append opt argstr value with
      | .error e => .error e
      | .ok val2append =>
        match fs.pos with
        | some p =>
          match val2append with
          | none => .error (.typeErr "'NoneType' object is unsubscriptable")
          | some [] => .error .indexErr
          | some (t :: _) =>
            if p ≥ 0 then .ok (.preArg p t) else .ok (.postArg p t)
        | none =>
          match val2append with
          | none => .error (.typeErr "'NoneType' object is not iterable")
          | some ts => .ok (.extend ts)

/-- The mutable state of the `_parse_inputs` loop: the running argument
list, the `preargs` and `postargs` dictionaries keyed by position, and
the warnings issued so far (as option-name/message pairs). -/
structure ParseState where
  allargs : List String
  preargs : List (Int × String)
  postargs : List (Int × String)
  warnings : List (String × String)
deriving DecidableEq

/-- Python dict assignment `d[k] = v` over an association list kept in
insertion order: an existing key is overwritten in place, a new key is
appended. -/
def dictUpdate (d : List (Int × String)) (k : Int) (v : String) :
    List (Int × String) :=
  if d.any (fun kv => kv.1 == k) then
    d.map (fun kv => if kv.1 == k then (kv.1, v) else kv)
  else d ++ [(k, v)]

/-- The per-field loop of `_parse_inputs`: a `TypeError` from a field is
recorded as a warning and the loop continues; a `KeyError` or any other
exception aborts the loop. -/
def parseLoop (spec : InSpec) :
    List (String × Value) → ParseState → Except FieldErr ParseState
  | [], st => .ok st
  | (opt, value) :: rest, st =>
    match fieldStep spec opt value with
    | .ok (.extend ts) =>
      parseLoop spec rest { st with allargs := st.allargs ++ ts }
    | .ok (.preArg p t) =>
      parseLoop spec rest { st with preargs := dictUpdate st.preargs p t }
    | .ok (.postArg p t) =>
      parseLoop spec rest { st with postargs := dictUpdate st.postargs p t }
    | .error (.typeErr msg) =>
      parseLoop spec rest { st with warnings := st.warnings ++ [(opt, msg)] }
    | .error e => .error e

/-- The base class hook `CommandLine._convert_inputs`, the identity. -/
def convertInputs (_opt : String) (v : Value) : Value := v

/-- The input collection step of `_parse_inputs`: drop skipped options,
convert each value, keep the defined (non-`None`) ones, and sort the
pairs (Python sorts the `(name, value)` tuples; names are dict keys and
hence distinct, so this is the lexicographic order of field names). -/
def processedInputs (skip : List String) (inputs : List (String × Value)) :
    List (String × Value) :=
  pySortedBy (fun a b => pyStrLt a.1 b.1)
    (inputs.filterMap (fun ov =>
      if skip.contains ov.1 then none
      else
        let v := convertInputs ov.1 ov.2
        if isVNone v then none else some (ov.1, v)))

/-- The closing placement phase of `_parse_inputs`: insert the positive
positions into `allargs` in ascending order of position at their literal
index, then append the negative positions in ascending order. -/
def assembleArgs (st : ParseState) : List String :=
  let withPre :=
    (pySortedBy (fun a b => decide (a.1 < b.1)) st.preargs).foldl
      (fun l kv => pyInsert l kv.1.toNat kv.2) st.allargs
  withPre ++ (pySortedBy (fun a b => decide (a.1 < b.1)) st.postargs).map (·.2)

/-- Fatal outcomes of `_parse_inputs`: the mandatory-field `ValueError`
(carrying the names printed before the raise) or an uncaught per-field
exception. -/
inductive ParseErr where
  | mandatoryMissing (missing : List String)
  | fieldFatal (e : FieldErr)
deriving DecidableEq

/-- Embeds `CommandLine._parse_inputs`: run the mandatory check, collect
and sort the defined inputs, process them one by one, and assemble the
final token list; returns the tokens together with the warnings. -/
def parseInputs (spec : InSpec) (inputs : List (String × Value))
    (skip : List String) :
    Except ParseErr (List String × List (String × String)) :=
  match checkMandatoryInputs (mandatoryOf spec) inputs with
  | .error m => .error (.mandatoryMissing m)
  | .ok _ =>
    match parseLoop spec (processedInputs skip inputs) ⟨[], [], [], []⟩ with
    | .error e => .error (.fieldFatal e)
    | .ok st => .ok (assembleArgs st, st.warnings)

/-! ## Execution (`CommandLine.run`) -/

/-- What the spawned child process produced: return code and the captured
output streams. -/
structure SpawnOutcome where
  returncode : Int
  stdout : String
  stderr : String

/-- The `runtime` bunch built by `CommandLine.run` (duration, hostname and
environment snapshot are real-time and process-global data, kept out of
the model). -/
structure RuntimeBunch where
  cmdline : String
  cwd : String
  stdout : Option String := none
  stderr : Option String := none
  returncode : Option Int := none

/-- The `InterfaceResult` of a run: the runtime record and the outputs
bunch, which stays `none` unless the run succeeded. -/
structure InterfaceResultB where
  runtime : RuntimeBunch
  outputs : Option (List (String × Value)) := none

/-- Python `dict.update` on an association list: existing keys are
overwritten in place, new keys are appended. -/
def bunchUpdate (b updates : List (String × Value)) :
    List (String × Value) :=
  (b.map (fun kv =>
    match updates.lookup kv.1 with
    | some v => (kv.1, v)
    | none => kv))
  ++ updates.filter (fun kv => (b.lookup kv.1).isNone)

/-- The outputs bunch `_outputs()`: every declared output field set to
`None`. -/
def interfaceOutputs (outSpec : List String) : List (String × Value) :=
  outSpec.map (fun k => (k, Value.vnone))

/-- Embeds `CommandLine.run`: update the inputs, synthesize the command
line (mandatory check and parsing happen here, before any spawn), spawn
the shell command, record return code and captured streams in the runtime
bunch, and aggregate outputs only on a zero return code.  The first
component lists the command lines actually spawned, so that "no process
was launched" is visible in the model. -/
def commandLineRun (cmd : String) (spec : InSpec) (outSpec : List String)
    (inputs extra : List (String × Value)) (cwd : String)
    (spawn : String → SpawnOutcome) :
    List String × Except ParseErr InterfaceResultB :=
  let inputs2 := bunchUpdate inputs extra
  match parseInputs spec inputs2 [] with
  | .error e => ([], .error e)
  | .ok (args, _warns) =>
    let cl := String.intercalate " " (cmd :: args)
    let oc := spawn cl
    let rt : RuntimeBunch :=
      { cmdline := cl, cwd := cwd, stdout := some oc.stdout,
        stderr := some oc.stderr, returncode := some oc.returncode }
    ([cl],
     .ok { runtime := rt,
           outputs :=
             if oc.returncode = 0 then some (interfaceOutputs outSpec)
             else none })

/-! ## Provenance hashing (`Bunch._get_bunch_hash`, `Bunch._hash_infile`)

The filesystem is a map from paths to the byte content of existing
regular files; the digest primitive (md5 over a byte buffer, a collaborator
per the spec) is a parameter used both for file contents and for the final
aggregate string. -/

/-- Exceptions of the hash computation: the `AttributeError` raised for an
empty container value (carrying the offending field name) and the
`TypeError` raised by `os.path.isfile` on a non-string inside
`_hash_infile`. -/
inductive HashErr where
  | attrError (key : String)
  | typeError
deriving DecidableEq

/-- One iteration of the `infile_list` scan in `_get_bunch_hash`: for a
container value take its first element (raising `AttributeError` when the
container is an empty list, taking `None` for a dict), otherwise the value
itself; the field is file-bearing when that item is a string naming an
existing file (`os.path.isfile` on a non-string raises a `TypeError` that
the scan catches and turns into `continue`). -/
def scanItem (fs : String → Option String) (key : String) (v : Value) :
    Except String (Option String) :=
  if isContainer v then
    match v with
    | .vdict _ => .ok none
    | .vlist .vnil => .error key
    | .vlist (.vcons x _) =>
      match x with
      | .vstr p => .ok (if (fs p).isSome then some key else none)
      | _ => .ok none
    | _ => .ok none
  else
    match v with
    | .vstr p => .ok (if (fs p).isSome then some key else none)
    | _ => .ok none

/-- The `infile_list` loop of `_get_bunch_hash`: the keys of file-bearing
fields, in iteration order; fails with the key of the first field holding
an empty list. -/
def infileList (fs : String → Option String) :
    List (String × Value) → Except String (List String)
  | [] => .ok []
  | (k, v) :: rest =>
    match scanItem fs k v with
    | .error e => .error e
    | .ok o =>
      match infileList fs rest with
      | .error e => .error e
      | .ok r => .ok (match o with | some key => key :: r | none => r)

/-- The iteration of `_hash_infile` over `stuff`: a container value is
iterated (a dict yields its keys), anything else is wrapped in a
one-element list. -/
def fileIter : Value → List Value
  | .vlist l => l.toList
  | .vdict d => d.keys.map (fun k => Value.vstr k)
  | v => [v]

/-- One element of the `_hash_infile` loop: an existing file contributes
the digest of its byte content, a missing path contributes `None`, and a
non-string element makes `os.path.isfile` raise an uncaught `TypeError`. -/
def hashElem (fs : String → Option String) (digest : String → String) :
    Value → Except HashErr (Value × Option String)
  | .vstr p => .ok (.vstr p, (fs p).map digest)
  | _ => .error .typeError

/-- Embeds `Bunch._hash_infile`: the list of `(element, digestOrNone)`
pairs for a file-bearing field value. -/
def hashInfile (fs : String → Option String) (digest : String → String)
    (v : Value) : Except HashErr (List (Value × Option String)) :=
  eMapM (hashElem fs digest) (fileIter v)

/-- An entry of `dict_nofilename`: either the original value of a
non-file field, or the bare digest list of a file-bearing field (the
paths are discarded). -/
inductive HashedVal where
  | plain (v : Value)
  | digests (ds : List (Option String))
deriving Inhabited

/-- Python `repr` of a digest-or-`None` entry. -/
def reprOptStr : Option String → String
  | none => "None"
  | some s => "'" ++ s ++ "'"

/-- Python `repr` of a `dict_nofilename` entry value. -/
def reprHashedVal : HashedVal → String
  | .plain v => reprValue v
  | .digests ds => "[" ++ String.intercalate ", " (ds.map reprOptStr) ++ "]"

/-- Python `str` of the sorted `dict_nofilename.items()` list of pairs. -/
def reprHashedItems (items : List (String × HashedVal)) : String :=
  "[" ++
    String.intercalate ", "
      (items.map (fun kv => "('" ++ kv.1 ++ "', " ++ reprHashedVal kv.2 ++ ")"))
  ++ "]"

/-- The replacement step of `_get_bunch_hash` for one field: a key in
`infile_list` is reduced to its digest list, any other key keeps its
value. -/
def nofileEntry (fs : String → Option String) (digest : String → String)
    (infiles : List String) (kv : String × Value) :
    Except HashErr (String × HashedVal) :=
  if infiles.contains kv.1 then
    match hashInfile fs digest kv.2 with
    | .error e => .error e
    | .ok pairs => .ok (kv.1, .digests (pairs.map (·.2)))
  else .ok (kv.1, .plain kv.2)

/-- Embeds `Bunch._get_bunch_hash`, returning the fingerprint (the second
component of the source's return value): find the file-bearing fields,
replace each by its digests, sort the entries by key, render the sorted
item list as a string and digest it. -/
def getBunchHash (fs : String → Option String) (digest : String → String)
    (b : List (String × Value)) : Except HashErr String :=
  match infileList fs b with
  | .error k => .error (.attrError k)
  | .ok infiles =>
    match eMapM (nofileEntry fs digest infiles) b with
    | .error e => .error e
    | .ok nofile =>
      .ok (digest (reprHashedItems
        (pySortedBy (fun a b => pyStrLt a.1 b.1) nofile)))

/-! ## Structured job serialization (`SPMCommand._generate_job`)

The job descriptor mirrors the Python structures the serializer dispatches
on: `None`, lists, dicts, object-dtype arrays (cells), record-dtype arrays
(tables), strings and integer scalars, again as mutual inductives. -/

mutual
/-- A nested SPM job descriptor node. -/
inductive MContents where
  | mnull
  | mlist (xs : MList)
  | mdict (xs : MDict)
  | mcell (xs : MList)
  | mtable (rows : MRows)
  | mstr (s : String)
  | mint (n : Int)

/-- A sequence of descriptor nodes. -/
inductive MList where
  | nil
  | cons (hd : MContents) (tl : MList)

/-- An ordered record of named descriptor nodes. -/
inductive MDict where
  | nil
  | cons (key : String) (val : MContents) (tl : MDict)

/-- The rows of a record-dtype array, each an ordered field record. -/
inductive MRows where
  | nil
  | cons (row : MDict) (tl : MRows)
end

mutual
/-- Embeds `SPMCommand._generate_job`: renders a descriptor rooted at
`pfx` as matlab assignment statements.  Lists recurse with 1-based
parenthesised indices, dicts recurse with dotted keys in declared order,
cells emit one bracketed block, tables emit one assignment per
`(row, field)` pair, a string leaf emits a single-quoted assignment and
any other scalar leaf emits a bare assignment. -/
def generateJob (pfx : String) : MContents → String
  | .mnull => ""
  | .mlist xs => genList pfx 0 xs
  | .mdict xs => genDict pfx xs
  | .mcell xs =>
    (if pfx != "" then pfx ++ " = \x7b...\n" else "\x7b...\n")
    ++ genCell xs ++ "\x7d;\n"
  | .mtable rows => genTable pfx 0 rows
  | .mstr s => pfx ++ " = '" ++ s ++ "';\n"
  | .mint n => pfx ++ " = " ++ toString n ++ ";\n"

/-- List elements of a job descriptor, at `pfx(i+1)`. -/
def genList (pfx : String) (i : Nat) : MList → String
  | .nil => ""
  | .cons v tl =>
    generateJob (pfx ++ "(" ++ toString (i + 1) ++ ")") v
    ++ genList pfx (i + 1) tl

/-- Record entries of a job descriptor, at `pfx.key`, in declared order. -/
def genDict (pfx : String) : MDict → String
  | .nil => ""
  | .cons k v tl => generateJob (pfx ++ "." ++ k) v ++ genDict pfx tl

/-- Elements of an object-dtype cell block: a nested array recurses with
an empty target, a string is quoted, anything else is stringified; each
entry ends with the `;...` continuation. -/
def genCell : MList → String
  | .nil => ""
  | .cons v tl =>
    (match v with
     | .mcell ys => generateJob "" (.mcell ys)
     | .mtable rows => generateJob "" (.mtable rows)
     | .mstr s => "'" ++ s ++ "';...\n"
     | w => mContentsStr w ++ ";...\n")
    ++ genCell tl

/-- Rows of a record-dtype array, at `pfx(i+1).field`. -/
def genTable (pfx : String) (i : Nat) : MRows → String
  | .nil => ""
  | .cons row tl => genTableRow pfx i row ++ genTable pfx (i + 1) tl

/-- Fields of one record-dtype row. -/
def genTableRow (pfx : String) (i : Nat) : MDict → String
  | .nil => ""
  | .cons f v tl =>
    generateJob
      (if pfx != "" then pfx ++ "(" ++ toString (i + 1) ++ ")." ++ f
       else "(" ++ toString (i + 1) ++ ")." ++ f) v
    ++ genTableRow pfx i tl

/-- Python `str` of a scalar descriptor node (the `str(val)` fallback of
the cell branch). -/
def mContentsStr : MContents → String
  | .mnull => "None"
  | .mstr s => s
  | .mint n => toString n
  | _ => ""
end

/-! ## Auxiliary predicates used to state claims decidably -/

/-- True exactly for boolean values. -/
def isVBool : Value → Bool
  | .vbool _ => true
  | _ => false

/-- True exactly for list values. -/
def isVList : Value → Bool
  | .vlist _ => true
  | _ => false

/-- A field spec with the given format template and optional position,
optional (non-mandatory) as the positional/flag examples of the spec are. -/
def mkFS (argstr : String) (pos : Option Int) : FieldSpec :=
  { optional := true, argstr := some argstr, pos := pos }

/-- A field name counts as undefined in a filled specification when every
entry under that name (if any) holds `None`; interface construction sets
every declared field to its default, `None` when unknown. -/
def undefinedIn (inputs : List (String × Value)) (k : String) : Bool :=
  inputs.all (fun kv => kv.1 != k || isVNone kv.2)

/-- Replace the value stored under key `k` by `w`, leaving every other
entry of the bunch unchanged. -/
def replaceVal (b : List (String × Value)) (k : String) (w : Value) :
    List (String × Value) :=
  b.map (fun kv => if kv.1 == k then (kv.1, w) else kv)

/-! ## Claim-side reference descriptions

The following definitions transcribe the spec's own wording of the
placement rule (§4.2 step 5), of the repeat-suffix rule (§4.2 step 4) and
of the record serialization (§4.4/§8); the theorems below compare them
with the embedded source functions. -/

/-- Tokens of the fields without an explicit position, in processing
order (the base list of the spec's step 5). -/
def extendTokens : List Placement → List String
  | [] => []
  | .extend ts :: rest => ts ++ extendTokens rest
  | _ :: rest => extendTokens rest

/-- The `(slot, token)` pairs of the fields with a non-negative position,
in processing order. -/
def prePairs : List Placement → List (Int × String)
  | [] => []
  | .preArg p t :: rest => (p, t) :: prePairs rest
  | _ :: rest => prePairs rest

/-- The `(slot, token)` pairs of the fields with a negative position, in
processing order. -/
def postPairs : List Placement → List (Int × String)
  | [] => []
  | .postArg p t :: rest => (p, t) :: postPairs rest
  | _ :: rest => postPairs rest

/-- The spec's placement rule: unpositioned tokens form the base list in
processing order; non-negative slots are inserted at their literal index
in ascending slot order; negative slots are appended afterwards in
ascending slot order. -/
def claimedArrangement (pls : List Placement) : List String :=
  let base := extendTokens pls
  let withPre :=
    (pySortedBy (fun a b => decide (a.1 < b.1)) (prePairs pls)).foldl
      (fun l kv => pyInsert l kv.1.toNat kv.2) base
  withPre ++ (pySortedBy (fun a b => decide (a.1 < b.1)) (postPairs pls)).map (·.2)

/-- The claim's reading of the repeatable rule: strip the final `...`
from the template (only the suffix). -/
def stripDotsSuffix (s : String) : String :=
  String.mk (s.data.take (s.data.length - 3))

/-- The claim's predicted repeatable tokens: coerce the value to a
sequence, strip the suffix, format each element with the stripped
template. -/
def claimC6Tokens (tmpl : String) (v : Value) : Except PyFmtErr (List String) :=
  let elems := match v with
    | .vlist l => l.toList
    | w => [w]
  eMapM (fun w => pyFmtScalar (stripDotsSuffix tmpl) w) elems

mutual
/-- A nested record descriptor whose leaves are strings or integers: the
shape quantified over by the structured-serialization claim. -/
inductive RecTree where
  | leafStr (s : String)
  | leafInt (n : Int)
  | node (xs : RecDict)

/-- The ordered entries of a nested record descriptor. -/
inductive RecDict where
  | nil
  | cons (key : String) (t : RecTree) (tl : RecDict)
end

mutual
/-- The job descriptor denoted by a nested record tree. -/
def RecTree.toM : RecTree → MContents
  | .leafStr s => .mstr s
  | .leafInt n => .mint n
  | .node xs => .mdict (RecDict.toM xs)

/-- The job record denoted by nested record entries. -/
def RecDict.toM : RecDict → MDict
  | .nil => .nil
  | .cons k t tl => .cons k (RecTree.toM t) (RecDict.toM tl)
end

mutual
/-- The claim's predicted output lines for a nested record at `pfx`: one
semicolon-terminated assignment per scalar leaf, string leaves
single-quoted, recursing into sub-records with a dotted target, in
declared key order. -/
def recLines (pfx : String) : RecTree → List String
  | .leafStr s => [pfx ++ " = '" ++ s ++ "';\n"]
  | .leafInt n => [pfx ++ " = " ++ toString n ++ ";\n"]
  | .node xs => recDictLines pfx xs

/-- The predicted lines of the entries of a record, in declared order. -/
def recDictLines (pfx : String) : RecDict → List String
  | .nil => []
  | .cons k t tl => recLines (pfx ++ "." ++ k) t ++ recDictLines pfx tl
end

/-- Concatenation of emitted lines into one script string. -/
def concatLines : List String → String
  | [] => ""
  | l :: ls => l ++ concatLines ls

/-! ## Basic lemmas -/

theorem VList.toList_ofList (vs : List Value) : (VList.ofList vs).toList = vs := by
  induction vs with
  | nil => rfl
  | cons v vs ih => simp [VList.ofList, VList.toList, ih]

theorem processedInputs_single (f : String) (v : Value) (hv : isVNone v = false) :
    processedInputs [] [(f, v)] = [(f, v)] := by
  simp [processedInputs, convertInputs, hv, pySortedBy, insSortedBy]

theorem mandatoryOf_optional_single (f : String) (fs : FieldSpec)
    (hopt : fs.optional = true) : mandatoryOf [(f, fs)] = [] := by
  simp [mandatoryOf, hopt]

theorem dictUpdate_nil (k : Int) (v : String) : dictUpdate [] k v = [(k, v)] := by
  simp [dictUpdate]

theorem pySortedBy_nil (lt : α → α → Bool) : pySortedBy lt [] = [] := rfl

theorem pySortedBy_single (lt : α → α → Bool) (x : α) :
    pySortedBy lt [x] = [x] := rfl

theorem pyInsert_nil (i : Nat) (x : String) : pyInsert [] i x = [x] := by
  simp [pyInsert]

theorem assembleArgs_extendOnly (ts : List String) (ws : List (String × String)) :
    assembleArgs ⟨ts, [], [], ws⟩ = ts := by
  simp [assembleArgs, pySortedBy_nil]

theorem assembleArgs_preOnly (p : Int) (t : String) (ws : List (String × String)) :
    assembleArgs ⟨[], [(p, t)], [], ws⟩ = [t] := by
  simp [assembleArgs, pySortedBy_nil, pySortedBy_single, pyInsert_nil]

theorem assembleArgs_postOnly (p : Int) (t : String) (ws : List (String × String)) :
    assembleArgs ⟨[], [], [(p, t)], ws⟩ = [t] := by
  simp [assembleArgs, pySortedBy_nil, pySortedBy_single]

/-- Evaluation of `parseInputs` for a one-field specification holding one
defined input: the outcome is determined by `fieldStep`, with a
`TypeError` downgraded to a per-field warning. -/
theorem parseInputs_single (f : String) (fs : FieldSpec) (v : Value)
    (hopt : fs.optional = true) (hv : isVNone v = false) :
    parseInputs [(f, fs)] [(f, v)] [] =
      match fieldStep [(f, fs)] f v with
      | .ok (.extend ts) => .ok (ts, [])
      | .ok (.preArg _ t) => .ok ([t], [])
      | .ok (.postArg _ t) => .ok ([t], [])
      | .error (.typeErr m) => .ok ([], [(f, m)])
      | .error e => .error (.fieldFatal e) := by
  rw [parseInputs, mandatoryOf_optional_single f fs hopt,
    processedInputs_single f v hv]
  have hck : checkMandatoryInputs [] [(f, v)] = .ok () := by
    simp [checkMandatoryInputs]
  rw [hck]
  rcases h : fieldStep [(f, fs)] f v with e | pl
  · rcases e with tm | ko | vm | _ <;>
      simp [parseLoop, h, assembleArgs_extendOnly]
  · rcases pl with ts | ⟨p, t⟩ | ⟨p, t⟩
    · simp [parseLoop, h, assembleArgs_extendOnly]
    · simp only [parseLoop, h]
      simp [dictUpdate_nil, assembleArgs_preOnly]
    · simp only [parseLoop, h]
      simp [dictUpdate_nil, assembleArgs_postOnly]

theorem lookup_single_self (f : String) (fs : FieldSpec) :
    List.lookup f [(f, fs)] = some fs := by
  simp [List.lookup]

/-! ## C7: boolean flag fields -/

/-- C7: for a field whose format template contains no substitution
marker, the synthesizer emits the template as a single token when the
value is `True`, emits no token when the value is `False`, and records a
`FormatError` (a per-field warning naming the field, with no token
emitted) for any non-boolean value. -/
theorem booleanFlagFormatting (f argstr : String) (v : Value)
    (hp : hasPercent argstr = false) (hnb : isVBool v = false)
    (hnn : isVNone v = false) :
    parseInputs [(f, mkFS argstr none)] [(f, .vbool true)] []
        = .ok ([argstr], [])
    ∧ parseInputs [(f, mkFS argstr none)] [(f, .vbool false)] []
        = .ok ([], [(f, "'NoneType' object is not iterable")])
    ∧ parseInputs [(f, mkFS argstr none)] [(f, v)] []
        = .ok ([], [(f, "Boolean option " ++ f ++ " set to " ++ pyStr v)]) := by
  refine ⟨?_, ?_, ?_⟩
  · rw [parseInputs_single f (mkFS argstr none) (.vbool true) rfl rfl]
    simp [fieldStep, lookup_single_self, mkFS, formatVal2Append, hp]
  · rw [parseInputs_single f (mkFS argstr none) (.vbool false) rfl rfl]
    simp [fieldStep, lookup_single_self, mkFS, formatVal2Append, hp]
  · rw [parseInputs_single f (mkFS argstr none) v rfl hnn]
    cases v <;>
      simp_all [fieldStep, lookup_single_self, mkFS, formatVal2Append, hp,
        isVBool, isVNone]

/-! ## C1: the placement rule -/

/-- When every field of the processed input list formats without error,
the `_parse_inputs` loop extends the argument list with the unpositioned
tokens in processing order and records the positioned tokens in the
`preargs`/`postargs` dictionaries, issuing no warning. -/
theorem parseLoop_all_ok (spec : InSpec) (l : List (String × Value)) :
    ∀ (pls : List Placement) (st : ParseState),
      eMapM (fun ov => fieldStep spec ov.1 ov.2) l = .ok pls →
      parseLoop spec l st = .ok
        { allargs := st.allargs ++ extendTokens pls,
          preargs := (prePairs pls).foldl (fun d kv => dictUpdate d kv.1 kv.2)
            st.preargs,
          postargs := (postPairs pls).foldl (fun d kv => dictUpdate d kv.1 kv.2)
            st.postargs,
          warnings := st.warnings } := by
  induction l with
  | nil =>
    intro pls st h
    simp only [eMapM] at h
    cases h
    simp [parseLoop, extendTokens, prePairs, postPairs]
  | cons ov rest ih =>
    intro pls st h
    obtain ⟨o, v⟩ := ov
    rcases hst : fieldStep spec o v with e | pl
    · simp only [eMapM, hst] at h
      cases h
    · simp only [eMapM, hst] at h
      rcases hrest : eMapM (fun ov => fieldStep spec ov.1 ov.2) rest with e2 | pls2
      · rw [hrest] at h; cases h
      · rw [hrest] at h
        cases h
        rcases pl with ts | ⟨p, t⟩ | ⟨p, t⟩
        · rw [parseLoop]
          simp only [hst]
          rw [ih pls2 _ hrest]
          simp [extendTokens, prePairs, postPairs, List.append_assoc]
        · rw [parseLoop]
          simp only [hst]
          rw [ih pls2 _ hrest]
          simp [extendTokens, prePairs, postPairs]
        · rw [parseLoop]
          simp only [hst]
          rw [ih pls2 _ hrest]
          simp [extendTokens, prePairs, postPairs]

/-- Folding Python dict assignments over pairs with pairwise-distinct
keys, none of which occurs in the accumulator, just appends the pairs. -/
theorem foldl_dictUpdate_disjoint :
    ∀ (pairs acc : List (Int × String)),
      (pairs.map (·.1)).Nodup →
      (∀ kv ∈ acc, kv.1 ∉ pairs.map (·.1)) →
      pairs.foldl (fun d kv => dictUpdate d kv.1 kv.2) acc = acc ++ pairs := by
  intro pairs
  induction pairs with
  | nil => intro acc _ _; simp
  | cons pt rest ih =>
    intro acc hnd hdis
    obtain ⟨p, t⟩ := pt
    simp only [List.map_cons, List.nodup_cons] at hnd
    have hany : (acc.any (fun kv => kv.1 == p)) = false := by
      rw [List.any_eq_false]
      intro kv hkv
      simp only [beq_iff_eq]
      intro hq
      exact hdis kv hkv (by simp [hq])
    have hupd : dictUpdate acc p t = acc ++ [(p, t)] := by
      simp [dictUpdate, hany]
    rw [List.foldl_cons, hupd, ih (acc ++ [(p, t)]) hnd.2]
    · simp
    · intro kv hkv
      rcases List.mem_append.mp hkv with hin | hin
      · exact fun hc => hdis kv hin (by simp [hc])
      · simp only [List.mem_singleton] at hin
        subst hin
        exact hnd.1


/-- C1: when the mandatory check passes, every defined field formats
without error, and the explicit positions do not collide, the synthesized
token sequence is exactly the spec's placement rule applied to the
per-field results taken in lexicographic field-name order: unpositioned
tokens form the base list in that order, non-negative slots are inserted
at their literal index in ascending slot order, and negative slots are
appended afterwards in ascending slot order. -/
theorem placementRule (spec : InSpec) (inputs : List (String × Value))
    (pls : List Placement)
    (hm : checkMandatoryInputs (mandatoryOf spec) inputs = .ok ())
    (hfmt : eMapM (fun ov => fieldStep spec ov.1 ov.2) (processedInputs [] inputs)
        = .ok pls)
    (hpre : ((prePairs pls).map (·.1)).Nodup)
    (hpost : ((postPairs pls).map (·.1)).Nodup) :
    parseInputs spec inputs [] = .ok (claimedArrangement pls, []) := by
  have hloop := parseLoop_all_ok spec (processedInputs [] inputs) pls
    ⟨[], [], [], []⟩ hfmt
  have h1 : (prePairs pls).foldl (fun d kv => dictUpdate d kv.1 kv.2) []
      = prePairs pls := by
    simpa using foldl_dictUpdate_disjoint (prePairs pls) [] hpre (by simp)
  have h2 : (postPairs pls).foldl (fun d kv => dictUpdate d kv.1 kv.2) []
      = postPairs pls := by
    simpa using foldl_dictUpdate_disjoint (postPairs pls) [] hpost (by simp)
  rw [parseInputs, hm]
  rw [hloop]
  simp [assembleArgs, claimedArrangement, h1, h2]

/-- Witness for C1 with the spec's positional example: fields `a`
(position 0), `b` (position −1), `c` and `d` (no position) with tokens
`A`, `B`, `C`, `D` synthesize as `[A, C, D, B]`. -/
theorem placementRule_witness :
    parseInputs
      [("a", mkFS "%s" (some 0)), ("b", mkFS "%s" (some (-1))),
       ("c", mkFS "%s" none), ("d", mkFS "%s" none)]
      [("a", .vstr "A"), ("b", .vstr "B"), ("c", .vstr "C"), ("d", .vstr "D")]
      [] = .ok (["A", "C", "D", "B"], []) := by
  have h := placementRule
    [("a", mkFS "%s" (some 0)), ("b", mkFS "%s" (some (-1))),
     ("c", mkFS "%s" none), ("d", mkFS "%s" none)]
    [("a", .vstr "A"), ("b", .vstr "B"), ("c", .vstr "C"), ("d", .vstr "D")]
    [.preArg 0 "A", .postArg (-1) "B", .extend ["C"], .extend ["D"]]
    (by decide) (by decide) (by decide) (by decide)
  rw [h]
  decide

/-! ## C3 and C10: the mandatory-field check -/

theorem isVNone_not_truthy (v : Value) (h : isVNone v = true) :
    pyTruthy v = false := by
  cases v <;> simp_all [isVNone, pyTruthy]

theorem not_mem_inkeys_of_all_falsy (inputs : List (String × Value)) (k : String)
    (hall : ∀ w, (k, w) ∈ inputs → pyTruthy w = false) :
    k ∉ inkeysOf inputs := by
  intro hmem
  obtain ⟨kv, hkv, hk⟩ := List.mem_map.mp hmem
  obtain ⟨hin, htr⟩ := List.mem_filter.mp hkv
  obtain ⟨k1, w⟩ := kv
  simp only at hk htr
  subst hk
  rw [hall w hin] at htr
  cases htr

theorem contains_eq_false_of_not_mem {l : List String} {a : String}
    (h : a ∉ l) : l.contains a = false := by
  cases hc : l.contains a
  · rfl
  · exact absurd (List.mem_of_elem_eq_true hc) h

/-- Core behavior of `_check_mandatory_inputs` when a mandatory argument
is not among the truthy inputs: it raises, the printed list contains
every mandatory argument not truthy-supplied, only mandatory arguments
are printed, and when nothing at all is truthy the whole mandatory list
is printed. -/
theorem checkMandatory_error_of_not_inkeys (m : List String)
    (inputs : List (String × Value)) (k : String)
    (hk : k ∈ m) (hnk : k ∉ inkeysOf inputs) :
    ∃ missing, checkMandatoryInputs m inputs = .error missing
      ∧ k ∈ missing ∧ missing ⊆ m
      ∧ (∀ k2 ∈ m, k2 ∉ inkeysOf inputs → k2 ∈ missing)
      ∧ (inkeysOf inputs = [] → missing = m) := by
  have hne : m.isEmpty = false := by
    cases m with
    | nil => cases hk
    | cons a l => rfl
  by_cases hik : (inkeysOf inputs).isEmpty
  · refine ⟨m, ?_, hk, fun a ha => ha, fun k2 h2 _ => h2, fun _ => rfl⟩
    simp [checkMandatoryInputs, hne, hik]
  · have hmk : k ∈ m.filter (fun a => !(inkeysOf inputs).contains a) :=
      List.mem_filter.mpr ⟨hk, by rw [contains_eq_false_of_not_mem hnk]; rfl⟩
    have hmne : (m.filter (fun a => !(inkeysOf inputs).contains a)).isEmpty
        = false := by
      rcases hh : m.filter (fun a => !(inkeysOf inputs).contains a) with _ | _
      · rw [hh] at hmk; cases hmk
      · rfl
    refine ⟨m.filter (fun a => !(inkeysOf inputs).contains a), ?_, hmk,
      List.filter_subset' _, ?_, ?_⟩
    · simp only [checkMandatoryInputs, hne, Bool.false_eq_true, if_false,
        hmne]
      simp [hik, hmne]
    · intro k2 h2 hn2
      exact List.mem_filter.mpr
        ⟨h2, by rw [contains_eq_false_of_not_mem hn2]; rfl⟩
    · intro hnil
      rw [hnil] at hik
      exact absurd rfl hik

theorem notin_inkeys_of_undefined (inputs : List (String × Value)) (k : String)
    (h : undefinedIn inputs k = true) : k ∉ inkeysOf inputs := by
  refine not_mem_inkeys_of_all_falsy inputs k (fun w hw => ?_)
  have h2 := List.all_eq_true.mp h _ hw
  simp only [bne_self_eq_false, Bool.false_or] at h2
  exact isVNone_not_truthy w h2

theorem inkeys_nil_of_all_none (inputs : List (String × Value))
    (h : ∀ kv ∈ inputs, isVNone kv.2 = true) : inkeysOf inputs = [] := by
  unfold inkeysOf
  have hf : inputs.filter (fun kv => pyTruthy kv.2) = [] := by
    rw [List.filter_eq_nil_iff]
    intro kv hkv
    rw [isVNone_not_truthy kv.2 (h kv hkv)]
    exact fun hc => by cases hc
  rw [hf]
  rfl

theorem bunchUpdate_nil (b : List (String × Value)) : bunchUpdate b [] = b := by
  simp [bunchUpdate]

/-- C3: when a mandatory field is undefined, `run` fails with the
mandatory-missing error before anything is spawned (the spawn trace is
empty): the reported list contains every undefined mandatory field at
once, only mandatory fields are reported, and in the degenerate case
where no field holds a value at all the whole mandatory list is
reported. -/
theorem mandatoryMissingAbortsRun (cmd : String) (spec : InSpec)
    (outSpec : List String) (inputs : List (String × Value)) (cwd : String)
    (spawn : String → SpawnOutcome) (k : String)
    (hk : k ∈ mandatoryOf spec)
    (hundef : undefinedIn inputs k = true) :
    ∃ missing,
      commandLineRun cmd spec outSpec inputs [] cwd spawn
        = ([], .error (.mandatoryMissing missing))
      ∧ (∀ k2 ∈ mandatoryOf spec, undefinedIn inputs k2 = true → k2 ∈ missing)
      ∧ missing ⊆ mandatoryOf spec
      ∧ ((∀ kv ∈ inputs, isVNone kv.2 = true) → missing = mandatoryOf spec) := by
  obtain ⟨missing, hcm, _, hsub, hforall, hdeg⟩ :=
    checkMandatory_error_of_not_inkeys (mandatoryOf spec) inputs k hk
      (notin_inkeys_of_undefined inputs k hundef)
  have hpi : parseInputs spec inputs []
      = .error (.mandatoryMissing missing) := by
    rw [parseInputs, hcm]
  refine ⟨missing, ?_, ?_, hsub, ?_⟩
  · simp only [commandLineRun, bunchUpdate_nil, hpi]
  · intro k2 h2 hu2
    exact hforall k2 h2 (notin_inkeys_of_undefined inputs k2 hu2)
  · intro hn
    exact hdeg (inkeys_nil_of_all_none inputs hn)

/-- Witness for C3: the specification requires `target_file`; the filled
specification defines only `flag`, so the run aborts naming
`target_file` and spawns nothing. -/
theorem mandatoryMissingAbortsRun_witness :
    ∃ missing,
      commandLineRun "tool"
        [("target_file", { optional := false, argstr := some "%s" }),
         ("flag", mkFS "--f" none)]
        ["out_file"]
        [("target_file", .vnone), ("flag", .vbool true)] [] "/tmp"
        (fun _ => ⟨0, "", ""⟩)
        = ([], .error (.mandatoryMissing missing))
      ∧ (∀ k2 ∈ mandatoryOf
            [("target_file", ({ optional := false, argstr := some "%s" } : FieldSpec)),
             ("flag", mkFS "--f" none)],
          undefinedIn [("target_file", .vnone), ("flag", .vbool true)] k2 = true
            → k2 ∈ missing)
      ∧ missing ⊆ mandatoryOf
          [("target_file", ({ optional := false, argstr := some "%s" } : FieldSpec)),
           ("flag", mkFS "--f" none)]
      ∧ ((∀ kv ∈ ([("target_file", .vnone), ("flag", .vbool true)] :
            List (String × Value)), isVNone kv.2 = true)
          → missing = mandatoryOf
              [("target_file", ({ optional := false, argstr := some "%s" } : FieldSpec)),
               ("flag", mkFS "--f" none)]) :=
  mandatoryMissingAbortsRun "tool"
    [("target_file", { optional := false, argstr := some "%s" }),
     ("flag", mkFS "--f" none)]
    ["out_file"]
    [("target_file", .vnone), ("flag", .vbool true)] "/tmp"
    (fun _ => ⟨0, "", ""⟩) "target_file" (by decide) (by decide)

/-- C10: the mandatory check counts a field as supplied only when its
value is truthy, so a mandatory field defined with a falsy value
(`False`, `0`, empty string or empty sequence) is reported missing and
synthesis raises the mandatory-missing error even though the field is
defined. -/
theorem falsyMandatoryRejected (spec : InSpec) (inputs : List (String × Value))
    (k : String) (v : Value)
    (hk : k ∈ mandatoryOf spec)
    (hmem : (k, v) ∈ inputs)
    (hdef : isVNone v = false)
    (hfalsy : pyTruthy v = false)
    (hall : ∀ w, (k, w) ∈ inputs → pyTruthy w = false) :
    ∃ missing, parseInputs spec inputs []
        = .error (.mandatoryMissing missing) ∧ k ∈ missing := by
  obtain ⟨missing, hcm, hkm, _, _, _⟩ :=
    checkMandatory_error_of_not_inkeys (mandatoryOf spec) inputs k hk
      (not_mem_inkeys_of_all_falsy inputs k hall)
  exact ⟨missing, by rw [parseInputs, hcm], hkm⟩

/-- Witness for C10: mandatory field `size` defined with the falsy value
`0` is still reported missing. -/
theorem falsyMandatoryRejected_witness :
    ∃ missing,
      parseInputs [("size", { optional := false, argstr := some "%d" })]
        [("size", .vint 0)] []
        = .error (.mandatoryMissing missing) ∧ "size" ∈ missing :=
  falsyMandatoryRejected
    [("size", { optional := false, argstr := some "%d" })]
    [("size", .vint 0)] "size" (.vint 0) (by decide) (by simp) (by decide)
    (by decide)
    (by
      intro w hw
      simp only [List.mem_singleton, Prod.mk.injEq, true_and] at hw
      subst hw
      decide)

/-! ## C4: structured record serialization -/

theorem concatLines_append (a b : List String) :
    concatLines (a ++ b) = concatLines a ++ concatLines b := by
  induction a with
  | nil => simp [concatLines, String.empty_append]
  | cons l ls ih => simp [concatLines, ih, String.append_assoc]

mutual
theorem generateJob_toM : ∀ (pfx : String) (t : RecTree),
    generateJob pfx t.toM = concatLines (recLines pfx t)
  | pfx, .leafStr s => by
    simp [RecTree.toM, generateJob, recLines, concatLines, String.append_empty]
  | pfx, .leafInt n => by
    simp [RecTree.toM, generateJob, recLines, concatLines, String.append_empty]
  | pfx, .node xs => by
    simp only [RecTree.toM, generateJob, recLines]
    exact genDict_toM pfx xs

theorem genDict_toM : ∀ (pfx : String) (xs : RecDict),
    genDict pfx (RecDict.toM xs) = concatLines (recDictLines pfx xs)
  | pfx, .nil => rfl
  | pfx, .cons k t tl => by
    simp only [RecDict.toM, genDict, recDictLines, concatLines_append]
    rw [generateJob_toM (pfx ++ "." ++ k) t, genDict_toM pfx tl]
end

/-- C4: the structured job serializer renders every nested record of
scalar leaves as exactly one semicolon-terminated assignment statement
per leaf — string leaves single-quoted — recursing into sub-records by
extending the dotted target, in the record's declared key order, never
re-sorted; in particular the record `{a: 1, b: {c: 2, d: 3}}` at root
target `jobs{1}.type{1}` yields precisely the three statements for
`.a`, `.b.c` and `.b.d` in declared order. -/
theorem structuredRecordSerialization :
    (∀ (pfx : String) (t : RecTree),
      generateJob pfx t.toM = concatLines (recLines pfx t))
    ∧ generateJob "jobs\x7b1\x7d.type\x7b1\x7d"
        (RecTree.toM (.node (.cons "a" (.leafInt 1)
          (.cons "b" (.node (.cons "c" (.leafInt 2)
            (.cons "d" (.leafInt 3) .nil))) .nil))))
      = "jobs\x7b1\x7d.type\x7b1\x7d.a = 1;\n"
        ++ "jobs\x7b1\x7d.type\x7b1\x7d.b.c = 2;\n"
        ++ "jobs\x7b1\x7d.type\x7b1\x7d.b.d = 3;\n" :=
  ⟨generateJob_toM, by decide⟩

/-! ## C2 and C5: the provenance fingerprint -/

theorem valEqStr_eq (v : Value) (p : String) (h : valEqStr v p = true) :
    v = .vstr p := by
  cases v <;> simp_all [valEqStr]

theorem scanItem_vstr (fs : String → Option String) (k p : String)
    (h : (fs p).isSome = true) : scanItem fs k (.vstr p) = .ok (some k) := by
  simp [scanItem, isContainer, h]

theorem replaceVal_nil (k : String) (w : Value) : replaceVal [] k w = [] := rfl

theorem replaceVal_cons_eq (k : String) (w v1 : Value)
    (rest : List (String × Value)) :
    replaceVal ((k, v1) :: rest) k w = (k, w) :: replaceVal rest k w := by
  simp only [replaceVal, List.map_cons]
  rw [if_pos (by simp)]

theorem replaceVal_cons_ne (k1 k : String) (w v1 : Value)
    (rest : List (String × Value)) (h : (k1 == k) = false) :
    replaceVal ((k1, v1) :: rest) k w = (k1, v1) :: replaceVal rest k w := by
  simp only [replaceVal, List.map_cons]
  rw [if_neg (by simp [h])]

theorem infileList_replace (fs : String → Option String) (k p1 p2 c : String)
    (h1 : fs p1 = some c) (h2 : fs p2 = some c) :
    ∀ b : List (String × Value),
      (∀ v : Value, (k, v) ∈ b → v = .vstr p1) →
      infileList fs (replaceVal b k (.vstr p2)) = infileList fs b := by
  intro b
  induction b with
  | nil => intro _; rfl
  | cons kv rest ih =>
    intro hk
    obtain ⟨k1, v1⟩ := kv
    have htail : ∀ v : Value, (k, v) ∈ rest → v = .vstr p1 :=
      fun v hv => hk v (List.mem_cons_of_mem _ hv)
    by_cases hkk : k1 = k
    · subst hkk
      have hv1 : v1 = .vstr p1 := hk v1 (List.mem_cons_self _ _)
      subst hv1
      have e1 : scanItem fs k1 (.vstr p1) = .ok (some k1) :=
        scanItem_vstr fs k1 p1 (by rw [h1]; rfl)
      have e2 : scanItem fs k1 (.vstr p2) = .ok (some k1) :=
        scanItem_vstr fs k1 p2 (by rw [h2]; rfl)
      rw [replaceVal_cons_eq]
      simp only [infileList, e1, e2, ih htail]
    · have hbeq : (k1 == k) = false := beq_eq_false_iff_ne.mpr hkk
      rw [replaceVal_cons_ne k1 k _ v1 rest hbeq]
      rcases hscan : scanItem fs k1 v1 with e | o
      · simp only [infileList, hscan]
      · simp only [infileList, hscan, ih htail]

theorem mem_infileList (fs : String → Option String) :
    ∀ (b : List (String × Value)) (I : List String) (k p : String),
      infileList fs b = .ok I → (k, Value.vstr p) ∈ b →
      (fs p).isSome = true → k ∈ I := by
  intro b
  induction b with
  | nil => intro I k p _ hmem; cases hmem
  | cons kv rest ih =>
    intro I k p hI hmem hp
    obtain ⟨k1, v1⟩ := kv
    rcases hscan : scanItem fs k1 v1 with e | o
    · rw [infileList, hscan] at hI; cases hI
    · rw [infileList, hscan] at hI
      rcases hrest : infileList fs rest with e2 | I2
      · rw [hrest] at hI; cases hI
      · rw [hrest] at hI
        cases hI
        rcases List.mem_cons.mp hmem with hhead | htail
        · rw [Prod.mk.injEq] at hhead
          obtain ⟨hk1, hv1⟩ := hhead
          subst hk1
          subst hv1
          rw [scanItem_vstr fs k p hp] at hscan
          cases hscan
          exact List.mem_cons_self _ _
        · have hin := ih I2 k p hrest htail hp
          cases o with
          | none => exact hin
          | some key => exact List.mem_cons_of_mem _ hin

theorem nofileEntry_file (fs : String → Option String) (digest : String → String)
    (I : List String) (k p c : String) (hc : fs p = some c) (hI : k ∈ I) :
    nofileEntry fs digest I (k, .vstr p)
      = .ok (k, .digests [some (digest c)]) := by
  have hcon : I.contains k = true := List.elem_eq_true_of_mem hI
  simp [nofileEntry, hcon, hI, hashInfile, fileIter, isContainer, eMapM,
    hashElem, hc]

theorem nofile_replace (fs : String → Option String) (digest : String → String)
    (k p1 p2 c : String) (h1 : fs p1 = some c) (h2 : fs p2 = some c)
    (I : List String) :
    ∀ b : List (String × Value),
      (∀ v : Value, (k, v) ∈ b → v = .vstr p1) →
      ((∃ v : Value, (k, v) ∈ b) → k ∈ I) →
      eMapM (nofileEntry fs digest I) (replaceVal b k (.vstr p2))
        = eMapM (nofileEntry fs digest I) b := by
  intro b
  induction b with
  | nil => intro _ _; rfl
  | cons kv rest ih =>
    intro hk hmem
    obtain ⟨k1, v1⟩ := kv
    have htail : ∀ v : Value, (k, v) ∈ rest → v = .vstr p1 :=
      fun v hv => hk v (List.mem_cons_of_mem _ hv)
    have hmemtail : (∃ v : Value, (k, v) ∈ rest) → k ∈ I :=
      fun ⟨v, hv⟩ => hmem ⟨v, List.mem_cons_of_mem _ hv⟩
    by_cases hkk : k1 = k
    · subst hkk
      have hv1 : v1 = .vstr p1 := hk v1 (List.mem_cons_self _ _)
      subst hv1
      have hin : k1 ∈ I := hmem ⟨.vstr p1, List.mem_cons_self _ _⟩
      have e1 := nofileEntry_file fs digest I k1 p1 c h1 hin
      have e2 := nofileEntry_file fs digest I k1 p2 c h2 hin
      rw [replaceVal_cons_eq]
      simp only [eMapM, e1, e2, ih htail hmemtail]
    · have hbeq : (k1 == k) = false := beq_eq_false_iff_ne.mpr hkk
      rw [replaceVal_cons_ne k1 k _ v1 rest hbeq]
      rcases hent : nofileEntry fs digest I (k1, v1) with e | r
      · simp only [eMapM, hent]
      · simp only [eMapM, hent, ih htail hmemtail]

/-- C2: replacing the path held by a file-valued field with a different
path to an existing file with the same byte content leaves the
fingerprint unchanged — the path is discarded before the aggregate hash
and only the content digest contributes. -/
theorem fingerprintRenameInvariant (fs : String → Option String)
    (digest : String → String) (b : List (String × Value)) (k p1 p2 c : String)
    (h1 : fs p1 = some c) (h2 : fs p2 = some c)
    (hk : b.all (fun kv => kv.1 != k || valEqStr kv.2 p1) = true) :
    getBunchHash fs digest (replaceVal b k (.vstr p2))
      = getBunchHash fs digest b := by
  have hk2 : ∀ v : Value, (k, v) ∈ b → v = .vstr p1 := by
    intro v hv
    have hkv := List.all_eq_true.mp hk _ hv
    simp only [bne_self_eq_false, Bool.false_or] at hkv
    exact valEqStr_eq v p1 hkv
  rw [getBunchHash, getBunchHash,
    infileList_replace fs k p1 p2 c h1 h2 b hk2]
  rcases hI : infileList fs b with e | I
  · rfl
  · have hmem : (∃ v : Value, (k, v) ∈ b) → k ∈ I := by
      rintro ⟨v, hv⟩
      have hv2 := hk2 v hv
      exact mem_infileList fs b I k p1 hI (by rwa [hv2] at hv) (by rw [h1]; rfl)
    simp only [nofile_replace fs digest k p1 p2 c h1 h2 I b hk2 hmem]

/-- Witness for C2 with the spec's example: renaming `a.img` (bytes `XX`)
to `a2.img` with unchanged bytes leaves the fingerprint of
`{op: +, in_file1, in_file2}` unchanged. -/
theorem fingerprintRenameInvariant_witness :
    ((fun p => if p == "a.img" then some "XX" else if p == "a2.img" then
        some "XX" else if p == "b.img" then some "YY" else none) "a.img"
      = some "XX")
    ∧ ((fun p => if p == "a.img" then some "XX" else if p == "a2.img" then
        some "XX" else if p == "b.img" then some "YY" else none) "a2.img"
      = some "XX")
    ∧ (([("op", Value.vstr "+"), ("in_file1", Value.vstr "a.img"),
        ("in_file2", Value.vstr "b.img")].all
          (fun kv => kv.1 != "in_file1" || valEqStr kv.2 "a.img")) = true)
    ∧ getBunchHash
        (fun p => if p == "a.img" then some "XX" else if p == "a2.img" then
          some "XX" else if p == "b.img" then some "YY" else none)
        (fun s => s ++ "#")
        (replaceVal
          [("op", Value.vstr "+"), ("in_file1", Value.vstr "a.img"),
           ("in_file2", Value.vstr "b.img")] "in_file1" (.vstr "a2.img"))
      = getBunchHash
        (fun p => if p == "a.img" then some "XX" else if p == "a2.img" then
          some "XX" else if p == "b.img" then some "YY" else none)
        (fun s => s ++ "#")
        [("op", Value.vstr "+"), ("in_file1", Value.vstr "a.img"),
         ("in_file2", Value.vstr "b.img")] :=
  ⟨by decide, by decide, by decide,
    fingerprintRenameInvariant
      (fun p => if p == "a.img" then some "XX" else if p == "a2.img" then
        some "XX" else if p == "b.img" then some "YY" else none)
      (fun s => s ++ "#")
      [("op", Value.vstr "+"), ("in_file1", Value.vstr "a.img"),
       ("in_file2", Value.vstr "b.img")]
      "in_file1" "a.img" "a2.img" "XX" (by decide) (by decide) (by decide)⟩

theorem scanItem_ok_of_nonempty (fs : String → Option String) (key : String)
    (v : Value) (h : isEmptyListVal v = false) :
    ∃ o, scanItem fs key v = .ok o := by
  cases v with
  | vnone => exact ⟨none, rfl⟩
  | vbool b => exact ⟨none, rfl⟩
  | vint n => exact ⟨none, rfl⟩
  | vstr p => exact ⟨if (fs p).isSome then some key else none, rfl⟩
  | vdict d => exact ⟨none, rfl⟩
  | vlist l =>
    cases l with
    | vnil => cases h
    | vcons x tl =>
      cases x with
      | vstr p => exact ⟨if (fs p).isSome then some key else none, rfl⟩
      | vnone => exact ⟨none, rfl⟩
      | vbool b => exact ⟨none, rfl⟩
      | vint n => exact ⟨none, rfl⟩
      | vlist l2 => exact ⟨none, rfl⟩
      | vdict d2 => exact ⟨none, rfl⟩

theorem infileList_firstEmpty (fs : String → Option String) (k : String)
    (b2 : List (String × Value)) :
    ∀ b1 : List (String × Value),
      (∀ kv ∈ b1, isEmptyListVal kv.2 = false) →
      infileList fs (b1 ++ (k, .vlist .vnil) :: b2) = .error k := by
  intro b1
  induction b1 with
  | nil => intro _; simp [infileList, scanItem, isContainer]
  | cons kv rest ih =>
    intro hall
    obtain ⟨k1, v1⟩ := kv
    obtain ⟨o, ho⟩ := scanItem_ok_of_nonempty fs k1 v1
      (hall (k1, v1) (List.mem_cons_self _ _))
    have htail := ih (fun kv hkv => hall kv (List.mem_cons_of_mem _ hkv))
    simp [infileList, ho, htail]

/-- C5: a field holding an empty sequence makes the fingerprint
computation fail with the empty-field `AttributeError` naming that field
(the first empty-sequence field in iteration order); no fingerprint is
produced. -/
theorem emptyFieldGuard (fs : String → Option String) (digest : String → String)
    (b1 b2 : List (String × Value)) (k : String)
    (hfirst : ∀ kv ∈ b1, isEmptyListVal kv.2 = false) :
    getBunchHash fs digest (b1 ++ (k, .vlist .vnil) :: b2)
      = .error (.attrError k) := by
  rw [getBunchHash, infileList_firstEmpty fs k b2 b1 hfirst]

/-- Witness for C5: a multi-file field `roi_files` holding `[]` aborts
fingerprinting with an error naming `roi_files`. -/
theorem emptyFieldGuard_witness :
    getBunchHash (fun _ => none) (fun s => s)
      [("op", Value.vstr "+"), ("roi_files", .vlist .vnil),
       ("mask", Value.vstr "m.img")]
      = .error (.attrError "roi_files") := by
  have h := emptyFieldGuard (fun _ => none) (fun s => s)
    [("op", Value.vstr "+")] [("mask", Value.vstr "m.img")] "roi_files"
    (by
      intro kv hkv
      simp only [List.mem_singleton] at hkv
      subst hkv
      rfl)
  simpa using h

/-! ## C8: nonzero return codes are conveyed, not raised -/

/-- C8: once the command line parses, `run` returns normally whatever the
child's return code is: the spawned command is executed exactly once, the
runtime record carries the child's return code and captured stderr, and
the outputs mapping is present exactly when the return code is zero. -/
theorem nonzeroReturnConveyedNotRaised (cmd : String) (spec : InSpec)
    (outSpec : List String) (inputs extra : List (String × Value))
    (cwd : String) (spawn : String → SpawnOutcome)
    (args : List String) (warns : List (String × String))
    (hparse : parseInputs spec (bunchUpdate inputs extra) [] = .ok (args, warns)) :
    ∃ res,
      commandLineRun cmd spec outSpec inputs extra cwd spawn
        = ([String.intercalate " " (cmd :: args)], .ok res)
      ∧ res.runtime.returncode
          = some (spawn (String.intercalate " " (cmd :: args))).returncode
      ∧ res.runtime.stderr
          = some (spawn (String.intercalate " " (cmd :: args))).stderr
      ∧ (res.outputs.isSome
          ↔ (spawn (String.intercalate " " (cmd :: args))).returncode = 0) := by
  refine ⟨⟨⟨String.intercalate " " (cmd :: args), cwd,
      some (spawn (String.intercalate " " (cmd :: args))).stdout,
      some (spawn (String.intercalate " " (cmd :: args))).stderr,
      some (spawn (String.intercalate " " (cmd :: args))).returncode⟩,
      if (spawn (String.intercalate " " (cmd :: args))).returncode = 0
      then some (interfaceOutputs outSpec) else none⟩, ?_, rfl, rfl, ?_⟩
  · simp only [commandLineRun, hparse]
  · by_cases h0 : (spawn (String.intercalate " " (cmd :: args))).returncode = 0 <;>
      simp [h0]

/-- Witness for C8: a child exiting with return code 1 produces a normal
result whose runtime carries the code and stderr, with no outputs. -/
theorem nonzeroReturnConveyedNotRaised_witness :
    parseInputs [("args", mkFS "%s" none)]
        (bunchUpdate [("args", Value.vnone)] []) [] = .ok ([], [])
    ∧ ∃ res,
        commandLineRun "ls" [("args", mkFS "%s" none)] ["stdout"]
          [("args", Value.vnone)] [] "/tmp" (fun _ => ⟨1, "", "boom"⟩)
          = ([String.intercalate " " ["ls"]], .ok res)
        ∧ res.runtime.returncode
            = some ((fun (_ : String) => (⟨1, "", "boom"⟩ : SpawnOutcome))
                (String.intercalate " " ["ls"])).returncode
        ∧ res.runtime.stderr
            = some ((fun (_ : String) => (⟨1, "", "boom"⟩ : SpawnOutcome))
                (String.intercalate " " ["ls"])).stderr
        ∧ (res.outputs.isSome
            ↔ ((fun (_ : String) => (⟨1, "", "boom"⟩ : SpawnOutcome))
                (String.intercalate " " ["ls"])).returncode = 0) :=
  ⟨by decide,
    nonzeroReturnConveyedNotRaised "ls" [("args", mkFS "%s" none)] ["stdout"]
      [("args", Value.vnone)] [] "/tmp" (fun _ => ⟨1, "", "boom"⟩) [] []
      (by decide)⟩

/-! ## C6: repeatable templates -/

/-- C6 counterexample: the template `-x...%s...` ends with the repeat
suffix, yet the synthesizer emits `-xv` for the value `v` (the source
removes every occurrence of `...` via `str.replace`), while the claim's
strip-only-the-suffix reading predicts `-x...v`. -/
theorem repeatableSuffixCounterexample :
    endsWith3Dots "-x...%s..." = true
    ∧ parseInputs [("f", mkFS "-x...%s..." none)] [("f", .vstr "v")] []
        = .ok (["-xv"], [])
    ∧ claimC6Tokens "-x...%s..." (.vstr "v") = .ok ["-x...v"]
    ∧ ("-xv" : String) ≠ "-x...v" := by decide

/-- C6 (amended): for a field whose format template contains a
substitution marker and ends with the repeat suffix `...`, the
synthesizer removes every occurrence of `...` from the template (for the
usual templates whose only occurrence is the final suffix this is exactly
stripping the suffix), coerces a scalar value to a one-element sequence,
and emits one separate token per element, in element order. -/
theorem repeatableTemplateFormatting (f tmpl : String) (vs : List Value)
    (ts : List String) (v : Value) (t : String)
    (hp : hasPercent tmpl = true) (hd : endsWith3Dots tmpl = true)
    (hfmt : eMapM (fun w => pyFmtScalar (removeDots tmpl) w) vs = .ok ts)
    (hnl : isVList v = false) (hnn : isVNone v = false)
    (hfmt1 : pyFmtScalar (removeDots tmpl) v = .ok t) :
    parseInputs [(f, mkFS tmpl none)] [(f, .vlist (VList.ofList vs))] []
        = .ok (ts, [])
    ∧ parseInputs [(f, mkFS tmpl none)] [(f, v)] [] = .ok ([t], []) := by
  constructor
  · rw [parseInputs_single f (mkFS tmpl none) (.vlist (VList.ofList vs)) rfl rfl]
    simp [fieldStep, lookup_single_self, mkFS, formatVal2Append, hp, hd,
      VList.toList_ofList, hfmt]
  · rw [parseInputs_single f (mkFS tmpl none) v rfl hnn]
    cases v <;>
      simp_all [fieldStep, lookup_single_self, mkFS, formatVal2Append, hp, hd,
        eMapM, isVList, isVNone]

/-- Witness for C6 with the spec's example `--id %d...` on `[1, 2, 3]`
(and the scalar `7` for the coercion clause). -/
theorem repeatableTemplateFormatting_witness :
    hasPercent "--id %d..." = true ∧ endsWith3Dots "--id %d..." = true
    ∧ eMapM (fun w => pyFmtScalar (removeDots "--id %d...") w)
        [Value.vint 1, Value.vint 2, Value.vint 3]
        = .ok ["--id 1", "--id 2", "--id 3"]
    ∧ (parseInputs [("ids", mkFS "--id %d..." none)]
          [("ids", .vlist (VList.ofList [Value.vint 1, Value.vint 2, Value.vint 3]))] []
          = .ok (["--id 1", "--id 2", "--id 3"], [])
       ∧ parseInputs [("ids", mkFS "--id %d..." none)] [("ids", .vint 7)] []
          = .ok (["--id 7"], [])) :=
  ⟨by decide, by decide, by decide,
    repeatableTemplateFormatting "ids" "--id %d..."
      [Value.vint 1, Value.vint 2, Value.vint 3]
      ["--id 1", "--id 2", "--id 3"] (Value.vint 7) "--id 7"
      (by decide) (by decide) (by decide) (by decide) (by decide) (by decide)⟩

/-! ## C9: positioned multi-token fields keep only the first token -/

/-- C9: when a field with an explicit position has a repeatable template
that produces at least two tokens, only the first token is placed (at the
position) and all remaining tokens are silently discarded — the result
holds one token and carries no warning. -/
theorem positionedRepeatableFirstTokenOnly (f tmpl : String) (p : Int)
    (v0 v1 : Value) (vrest : List Value) (t0 : String) (ts : List String)
    (hp : hasPercent tmpl = true) (hd : endsWith3Dots tmpl = true)
    (hfmt : eMapM (fun w => pyFmtScalar (removeDots tmpl) w) (v0 :: v1 :: vrest)
        = .ok (t0 :: ts)) :
    parseInputs [(f, mkFS tmpl (some p))]
        [(f, .vlist (VList.ofList (v0 :: v1 :: vrest)))] [] = .ok ([t0], []) := by
  rw [parseInputs_single f (mkFS tmpl (some p))
    (.vlist (VList.ofList (v0 :: v1 :: vrest))) rfl rfl]
  by_cases hp0 : p ≥ 0
  · simp [fieldStep, lookup_single_self, mkFS, formatVal2Append, hp, hd,
      VList.toList_ofList, hfmt, hp0]
  · simp [fieldStep, lookup_single_self, mkFS, formatVal2Append, hp, hd,
      VList.toList_ofList, hfmt, hp0]

/-- Witness for C9: template `--id %d...` at position 0 with value
`[1, 2, 3]` yields only `--id 1`; the tokens `--id 2`, `--id 3` are
dropped. -/
theorem positionedRepeatableFirstTokenOnly_witness :
    hasPercent "--id %d..." = true ∧ endsWith3Dots "--id %d..." = true
    ∧ eMapM (fun w => pyFmtScalar (removeDots "--id %d...") w)
        [Value.vint 1, Value.vint 2, Value.vint 3]
        = .ok ["--id 1", "--id 2", "--id 3"]
    ∧ parseInputs [("ids", mkFS "--id %d..." (some 0))]
        [("ids", .vlist (VList.ofList [Value.vint 1, Value.vint 2, Value.vint 3]))] []
        = .ok (["--id 1"], []) :=
  ⟨by decide, by decide, by decide,
    positionedRepeatableFirstTokenOnly "ids" "--id %d..." 0
      (Value.vint 1) (Value.vint 2) [Value.vint 3] "--id 1" ["--id 2", "--id 3"]
      (by decide) (by decide) (by decide)⟩

/-- Witness for C7 with the spec's own example: template `--flag`, values
`True`, `False` and the non-boolean string `yes`. -/
theorem booleanFlagFormatting_witness :
    hasPercent "--flag" = false ∧ isVBool (Value.vstr "yes") = false
    ∧ isVNone (Value.vstr "yes") = false
    ∧ (parseInputs [("flag", mkFS "--flag" none)] [("flag", .vbool true)] []
          = .ok (["--flag"], [])
       ∧ parseInputs [("flag", mkFS "--flag" none)] [("flag", .vbool false)] []
          = .ok ([], [("flag", "'NoneType' object is not iterable")])
       ∧ parseInputs [("flag", mkFS "--flag" none)] [("flag", .vstr "yes")] []
          = .ok ([], [("flag", "Boolean option flag set to yes")])) :=
  ⟨by decide, by decide, by decide,
    by
      have h := booleanFlagFormatting "flag" "--flag" (.vstr "yes")
        (by decide) (by decide) (by decide)
      simpa [pyStr] using h⟩

end Nipype
